import Mathlib

/-!
Verification of the filter-and-aggregate pipeline specified for the
`dld-dubai` analytics dashboard, together with the numeric helpers of
`src/utils.py`.

The pipeline operations `apply_filters`, `aggregate` and `period_bucket`
are specified in spec §3–§4.1 but are not implemented as such in the
source tree: every dashboard view inlines ad-hoc pandas filtering and
grouping (`src/dashboards/*.py`).  Those operations are therefore
modelled here from the spec's words; helpers that do exist in
`src/utils.py` (such as `calculate_percent_change`) are embedded
directly from the source.
-/

/-- A calendar date (year, month, day), months and days 1-based. -/
structure Date where
  year : Nat
  month : Nat
  day : Nat
deriving DecidableEq, Repr

/-- Modelled from the spec: a field value of a Record — "named fields of
fixed semantic type (string, number, date, boolean, nullable)" (§3). -/
inductive Value where
  | vStr (s : String)
  | vNum (q : ℚ)
  | vBool (b : Bool)
  | vDate (d : Date)
  | vNull
deriving DecidableEq, Repr

/-- Modelled from the spec: a Record is a row with named fields (§3). -/
abbrev Record : Type := List (String × Value)

/-- First value bound to a field name in a record, if any. -/
def getField (r : Record) (f : String) : Option Value :=
  match r.find? (fun kv => kv.1 == f) with
  | some kv => some kv.2
  | none => none

/-- Modelled from the spec: a Dataset is "an ordered sequence of Records
sharing a schema snapshot" (§3); the schema is the ordered set of field
names. -/
structure Dataset where
  schema : List String
  records : List Record
deriving DecidableEq

/-- Modelled from the spec: the error taxonomy of §7 — `SchemaMismatch`,
`InvalidRange`, `InvalidDateField`, `EmptyReduction`; all typed,
recoverable failures. -/
inductive PipelineError where
  | SchemaMismatch (field : String)
  | InvalidRange
  | InvalidDateField
  | EmptyReduction
deriving DecidableEq, Repr

/-- Modelled from the spec: a FilterPredicate is "a condition over a
single named field: equality, set-membership, numeric range (inclusive
bounds), or substring match" (§3). -/
inductive FilterPredicate where
  | eq (field : String) (v : Value)
  | memberOf (field : String) (vs : List Value)
  | range (field : String) (lo hi : ℚ)
  | substr (field : String) (needle : String)
deriving DecidableEq

/-- The field a predicate constrains. -/
def FilterPredicate.field : FilterPredicate → String
  | .eq f _ => f
  | .memberOf f _ => f
  | .range f _ _ => f
  | .substr f _ => f

/-- Does the character list `needle` occur at the head of `hay`? -/
def leadsWith : List Char → List Char → Bool
  | [], _ => true
  | _ :: _, [] => false
  | a :: as, b :: bs => a == b && leadsWith as bs

/-- Does the character list `needle` occur anywhere inside `hay`? -/
def occursIn (needle : List Char) : List Char → Bool
  | [] => needle.isEmpty
  | hay@(_ :: rest) => leadsWith needle hay || occursIn needle rest

/-- Modelled from the spec: predicate satisfaction on one record.
Numeric ranges use inclusive bounds; substring and set-membership
predicates "treat missing (null) field values as non-matching
(excluded), not as errors" (§4.1). -/
def satisfies (p : FilterPredicate) (r : Record) : Bool :=
  match p with
  | .eq f v =>
    match getField r f with
    | some w => w == v
    | none => false
  | .memberOf f vs =>
    match getField r f with
    | some .vNull => false
    | some w => vs.contains w
    | none => false
  | .range f lo hi =>
    match getField r f with
    | some (.vNum q) => decide (lo ≤ q ∧ q ≤ hi)
    | _ => false
  | .substr f needle =>
    match getField r f with
    | some (.vStr s) => occursIn needle.data s.data
    | _ => false

/-- A range predicate with lower bound above upper bound is malformed
(§4.1: "a predicate with lower > upper fails with `InvalidRange`"). -/
def FilterPredicate.badRange : FilterPredicate → Bool
  | .range _ lo hi => decide (hi < lo)
  | _ => false

/-- Modelled from the spec: `apply_filters(dataset, predicates) ->
FilteredView` (§4.1).  Every predicate's field must exist in the schema,
else `SchemaMismatch` naming the (first) missing field; a malformed
range fails with `InvalidRange`; otherwise the records are restricted,
order-preserving, to those satisfying every predicate (logical AND). -/
def apply_filters (ds : Dataset) (ps : List FilterPredicate) :
    Except PipelineError Dataset :=
  match ps.find? (fun p => !(ds.schema.contains p.field)) with
  | some p => .error (.SchemaMismatch p.field)
  | none =>
    if ps.any (fun p => p.badRange) then .error .InvalidRange
    else .ok { schema := ds.schema,
               records := ds.records.filter (fun r => ps.all (fun p => satisfies p r)) }

/-- Result type of `calculate_percent_change`: either the float infinity
returned on a zero base, or a finite number. -/
inductive PercentChange where
  | infinite
  | value (q : ℚ)
deriving DecidableEq, Repr

/-- Embedded from `src/utils.py` (`calculate_percent_change`): returns
`float('inf')` when `previous == 0`, else `((current - previous) /
previous) * 100`. -/
def calculate_percent_change (current previous : ℚ) : PercentChange :=
  if previous = 0 then .infinite
  else .value (((current - previous) / previous) * 100)

/-- The §8 scenario dataset: five records with `price` = [100, 200, 300,
400, 500] and `area` = [A, A, B, B, B]. -/
def sampleDS : Dataset :=
  { schema := ["price", "area"],
    records := [
      [("price", .vNum 100), ("area", .vStr "A")],
      [("price", .vNum 200), ("area", .vStr "A")],
      [("price", .vNum 300), ("area", .vStr "B")],
      [("price", .vNum 400), ("area", .vStr "B")],
      [("price", .vNum 500), ("area", .vStr "B")]] }

/-- The §8 scenario filter: `price >= 200` as an inclusive range. -/
def samplePreds : List FilterPredicate := [.range "price" 200 500]

/-- The FilteredView the §8 scenario expects: the four records with
`price >= 200`, in source order. -/
def sampleView : Dataset :=
  { schema := ["price", "area"],
    records := [
      [("price", .vNum 200), ("area", .vStr "A")],
      [("price", .vNum 300), ("area", .vStr "B")],
      [("price", .vNum 400), ("area", .vStr "B")],
      [("price", .vNum 500), ("area", .vStr "B")]] }

/-- Modelled from the spec: the reduction functions of an
AggregationSpec — "{count, sum, mean, median, min, max}" (§3). -/
inductive Reduction where
  | count
  | sum
  | mean
  | median
  | min
  | max
deriving DecidableEq, Repr

/-- Modelled from the spec: "a grouping field (or none, meaning
whole-dataset), a target field, and a reduction function" (§3). -/
structure AggregationSpec where
  groupField : Option String
  targetField : String
  reduction : Reduction

/-- A SummaryTable: "one row per distinct group key" with the requested
reduction value (§3). -/
abbrev SummaryTable : Type := List (Value × ℚ)

/-- Numeric content of a value, if any. -/
def Value.toNum : Value → Option ℚ
  | .vNum q => some q
  | _ => none

/-- Modelled from the spec: one reduction over the numeric column of a
group.  A non-`count` reduction over zero rows is the typed failure
`EmptyReduction`, "never silently defaulted to zero"; `count` over zero
rows "is well-defined as zero" (§3, §7). -/
def reduce : Reduction → List ℚ → Except PipelineError ℚ
  | .count, xs => .ok xs.length
  | .sum, [] => .error .EmptyReduction
  | .mean, [] => .error .EmptyReduction
  | .median, [] => .error .EmptyReduction
  | .min, [] => .error .EmptyReduction
  | .max, [] => .error .EmptyReduction
  | .sum, xs => .ok xs.sum
  | .mean, xs => .ok (xs.sum / xs.length)
  | .median, xs =>
    let s := xs.insertionSort (· ≤ ·)
    .ok (if xs.length % 2 = 1 then s.getD (xs.length / 2) 0
         else (s.getD (xs.length / 2 - 1) 0 + s.getD (xs.length / 2) 0) / 2)
  | .min, x :: xs => .ok (xs.foldl Min.min x)
  | .max, x :: xs => .ok (xs.foldl Max.max x)

/-- The group key of a record under a grouping field: the field's value,
a missing field grouping with the nulls. -/
def keyOf (g : String) (r : Record) : Value := (getField r g).getD .vNull

/-- The numeric column a non-`count` reduction consumes: the numeric
values of the target field over the group's rows. -/
def targetNums (t : String) (rs : List Record) : List ℚ :=
  rs.filterMap (fun r => (getField r t).bind Value.toNum)

/-- The reduction value of one group of rows: `count` counts the rows
regardless of field content ("count works on any field including none",
§4.1); every other reduction reduces the numeric target column. -/
def reduceFor (sp : AggregationSpec) (rs : List Record) :
    Except PipelineError ℚ :=
  match sp.reduction with
  | .count => reduce .count (rs.map (fun _ => 0))
  | red => reduce red (targetNums sp.targetField rs)

/-- Tag each key with its (fallible) reduction value, propagating the
first typed failure. -/
def collectRows (f : Value → Except PipelineError ℚ) :
    List Value → Except PipelineError SummaryTable
  | [] => .ok []
  | k :: ks =>
    match f k, collectRows f ks with
    | .ok q, .ok rest => .ok ((k, q) :: rest)
    | .error e, _ => .error e
    | .ok _, .error e => .error e

/-- Constructor rank used to compare group keys of different types. -/
def Value.rank : Value → Nat
  | .vNull => 0
  | .vBool _ => 1
  | .vNum _ => 2
  | .vStr _ => 3
  | .vDate _ => 4

/-- The ascending lexical order on group keys (§4.1 tie-break): string
keys compare lexically; keys of other types compare within their type,
and across types by constructor rank. -/
def Value.keyLEb : Value → Value → Bool
  | .vStr s, .vStr t => decide (s ≤ t)
  | .vNum p, .vNum q => decide (p ≤ q)
  | .vBool p, .vBool q => !p || q
  | .vDate d, .vDate e =>
    decide (d.year < e.year ∨ (d.year = e.year ∧
      (d.month < e.month ∨ (d.month = e.month ∧ d.day ≤ e.day))))
  | .vNull, .vNull => true
  | a, b => decide (a.rank ≤ b.rank)

/-- Row order of a SummaryTable (§4.1): "group rows ordered by
descending reduction value ...; ties broken by ascending group-key
lexical order for determinism". -/
def rowLEb (a b : Value × ℚ) : Bool :=
  decide (b.2 < a.2) || (decide (a.2 = b.2) && Value.keyLEb a.1 b.1)

/-- `rowLEb` as a relation, for sorting. -/
def rowRel (a b : Value × ℚ) : Prop := rowLEb a b = true

instance : DecidableRel rowRel :=
  fun a b => inferInstanceAs (Decidable (rowLEb a b = true))

/-- Schema validation of an AggregationSpec against a view: the grouping
field and (for non-`count` reductions) the target field must exist. -/
def checkFields (v : Dataset) (sp : AggregationSpec) : Option String :=
  match sp.groupField with
  | some g =>
    if !(v.schema.contains g) then some g
    else if sp.reduction = .count then none
    else if v.schema.contains sp.targetField then none
    else some sp.targetField
  | none =>
    if sp.reduction = .count then none
    else if v.schema.contains sp.targetField then none
    else some sp.targetField

/-- The unsorted group rows of an aggregation: one row per distinct
group key present in the view (or a single whole-dataset row when no
grouping field is given). -/
def groupRows (v : Dataset) (sp : AggregationSpec) :
    Except PipelineError SummaryTable :=
  match sp.groupField with
  | some g =>
    collectRows
      (fun k => reduceFor sp (v.records.filter (fun r => keyOf g r == k)))
      ((v.records.map (keyOf g)).dedup)
  | none => (reduceFor sp v.records).map (fun q => [(.vNull, q)])

/-- Modelled from the spec: `aggregate(view, spec) -> SummaryTable`
(§4.1).  An empty view yields an empty SummaryTable, not an error;
otherwise fields are validated, each group present in the view is
reduced, and the rows are sorted by descending reduction value with the
lexical tie-break. -/
def aggregate (v : Dataset) (sp : AggregationSpec) :
    Except PipelineError SummaryTable :=
  if v.records.isEmpty then .ok []
  else
    match checkFields v sp with
    | some f => .error (.SchemaMismatch f)
    | none =>
      match groupRows v sp with
      | .ok rows => .ok (rows.insertionSort rowRel)
      | .error e => .error e

/-- Gregorian leap year. -/
def isLeap (y : Nat) : Bool := (y % 4 == 0 && y % 100 != 0) || y % 400 == 0

/-- Number of days in a calendar month. -/
def daysInMonth (y m : Nat) : Nat :=
  if m = 2 then (if isLeap y then 29 else 28)
  else if m = 4 ∨ m = 6 ∨ m = 9 ∨ m = 11 then 30
  else 31

/-- A well-formed calendar date (years kept to four digits, as every
date in the source data is). -/
def validDate (d : Date) : Prop :=
  1 ≤ d.year ∧ d.year ≤ 9999 ∧ 1 ≤ d.month ∧ d.month ≤ 12 ∧
    1 ≤ d.day ∧ d.day ≤ daysInMonth d.year d.month

instance (d : Date) : Decidable (validDate d) := by
  unfold validDate; infer_instance

/-- Days of the year before the 1st of a month (leap day excluded). -/
def monthOffset (m : Nat) : Nat :=
  match m with
  | 1 => 0
  | 2 => 31
  | 3 => 59
  | 4 => 90
  | 5 => 120
  | 6 => 151
  | 7 => 181
  | 8 => 212
  | 9 => 243
  | 10 => 273
  | 11 => 304
  | _ => 334

/-- One extra day from March on in leap years. -/
def madj (y m : Nat) : Nat :=
  if isLeap y && decide (3 ≤ m) then 1 else 0

/-- 1-based ordinal of a date within its year. -/
def dayOfYear (d : Date) : Nat :=
  monthOffset d.month + madj d.year d.month + d.day

/-- 0-based week-of-year bucket index (seven-day blocks from Jan 1). -/
def weekOfYear (d : Date) : Nat := (dayOfYear d - 1) / 7

/-- 1-based quarter of a month. -/
def quarterOf (m : Nat) : Nat := (m - 1) / 3 + 1

/-- The decimal digit character of `n` for `n ≤ 9`. -/
def digitChar (n : Nat) : Char :=
  match n with
  | 0 => '0'
  | 1 => '1'
  | 2 => '2'
  | 3 => '3'
  | 4 => '4'
  | 5 => '5'
  | 6 => '6'
  | 7 => '7'
  | 8 => '8'
  | _ => '9'

/-- `n` written as exactly `w` decimal digit characters, zero-padded. -/
def padDigits : Nat → Nat → List Char
  | 0, _ => []
  | w + 1, n => digitChar (n / 10 ^ w) :: padDigits w (n % 10 ^ w)

/-- Modelled from the spec: the five bucketing granularities of
`period_bucket` — "{day, week, month, quarter, year}" (§4.1). -/
inductive Granularity where
  | day
  | week
  | month
  | quarter
  | year
deriving DecidableEq, Repr

/-- The characters of a bucket key: zero-padded calendar components
joined so that keys of one granularity sort lexically in chronological
order ("2024", "2024-01", "2024-Q1", "2024-W02", "2024-01-15"). -/
def keyChars (g : Granularity) (d : Date) : List Char :=
  match g with
  | .year => padDigits 4 d.year
  | .month => padDigits 4 d.year ++ '-' :: padDigits 2 d.month
  | .quarter => padDigits 4 d.year ++ '-' :: 'Q' :: padDigits 1 (quarterOf d.month)
  | .week => padDigits 4 d.year ++ '-' :: 'W' :: padDigits 2 (weekOfYear d)
  | .day => padDigits 4 d.year ++ '-' :: padDigits 2 d.month ++ '-' :: padDigits 2 d.day

/-- Modelled from the spec: the deterministic bucket key of a date at a
granularity (§4.1). -/
def bucketKey (g : Granularity) (d : Date) : String := ⟨keyChars g d⟩

/-- Two dates fall in the same calendar bucket of a granularity. -/
def sameBucket (g : Granularity) (d e : Date) : Prop :=
  match g with
  | .year => d.year = e.year
  | .month => d.year = e.year ∧ d.month = e.month
  | .quarter => d.year = e.year ∧ quarterOf d.month = quarterOf e.month
  | .week => d.year = e.year ∧ weekOfYear d = weekOfYear e
  | .day => d.year = e.year ∧ d.month = e.month ∧ d.day = e.day

instance (g : Granularity) (d e : Date) : Decidable (sameBucket g d e) := by
  cases g <;> (unfold sameBucket; infer_instance)

/-- Chronological (strict) order of calendar dates. -/
def dateBefore (d e : Date) : Prop :=
  d.year < e.year ∨ (d.year = e.year ∧
    (d.month < e.month ∨ (d.month = e.month ∧ d.day < e.day)))

instance (d e : Date) : Decidable (dateBefore d e) := by
  unfold dateBefore; infer_instance

/-- Strict lexical order on strings, character by character. -/
def strLexLt (s t : String) : Prop := List.Lex (· < ·) s.data t.data

/-- A field value read as a date: only well-formed date values parse;
strings, numbers, booleans and nulls do not. -/
def parseDateValue : Value → Option Date
  | .vDate d => if validDate d then some d else none
  | _ => none

/-- Each record of a dataset paired with its parsed date in a field. -/
def parsedRecords (ds : Dataset) (field : String) :
    List (Record × Option Date) :=
  ds.records.map (fun r => (r, parseDateValue ((getField r field).getD .vNull)))

/-- How many records of a dataset fail to parse as dates in a field. -/
def droppedCount (ds : Dataset) (field : String) : Nat :=
  ((parsedRecords ds field).filter (fun x => x.2.isNone)).length

/-- Modelled from the spec: `period_bucket(dataset, date_field,
granularity) -> Dataset with added bucket field` (§4.1).  A missing
field is a `SchemaMismatch`; more unparsable records than the tolerance
allows is `InvalidDateField`; otherwise unparsable records are dropped
and their count is returned alongside the bucketed Dataset, never
silently lost. -/
def period_bucket (ds : Dataset) (field : String) (g : Granularity)
    (tol : Nat) : Except PipelineError (Dataset × Nat) :=
  if !(ds.schema.contains field) then .error (.SchemaMismatch field)
  else if tol < droppedCount ds field then .error .InvalidDateField
  else .ok
    ({ schema := ds.schema ++ ["time_period"],
       records := (parsedRecords ds field).filterMap (fun x => x.2.map
         (fun d => x.1 ++ [("time_period", .vStr (bucketKey g d))])) },
     droppedCount ds field)

/-- The §8 time scenario dataset: dates 2024-01-15, 2024-01-20 and
2024-02-01 in a field `d`. -/
def monthDS : Dataset :=
  { schema := ["d"],
    records := [
      [("d", .vDate ⟨2024, 1, 15⟩)],
      [("d", .vDate ⟨2024, 1, 20⟩)],
      [("d", .vDate ⟨2024, 2, 1⟩)]] }

/-- The §8 time scenario expectation: every record tagged with its
monthly bucket, ["2024-01", "2024-01", "2024-02"]. -/
def monthBucketedDS : Dataset :=
  { schema := ["d", "time_period"],
    records := [
      [("d", .vDate ⟨2024, 1, 15⟩), ("time_period", .vStr "2024-01")],
      [("d", .vDate ⟨2024, 1, 20⟩), ("time_period", .vStr "2024-01")],
      [("d", .vDate ⟨2024, 2, 1⟩), ("time_period", .vStr "2024-02")]] }

/-- `monthDS` with one record whose `d` value is not a date. -/
def badDateDS : Dataset :=
  { schema := ["d"],
    records := monthDS.records ++ [[("d", .vStr "oops")]] }

instance instRowRelTotal : IsTotal (Value × ℚ) rowRel := by
  constructor
  intro a b
  have htot : ∀ x y : Value, x.keyLEb y = true ∨ y.keyLEb x = true := by
    intro x y
    cases x <;> cases y <;> simp [Value.keyLEb, Value.rank] <;>
      first
      | exact le_total _ _
      | omega
      | (rename_i p q; cases p <;> cases q <;> simp)
  unfold rowRel rowLEb
  rcases lt_trichotomy a.2 b.2 with h | h | h
  · right; simp [h]
  · rcases htot a.1 b.1 with hk | hk
    · left; simp [h, hk]
    · right; simp [h, hk]
  · left; simp [h]

instance instRowRelTrans : IsTrans (Value × ℚ) rowRel := by
  constructor
  intro a b c h1 h2
  have htr : ∀ x y z : Value, x.keyLEb y = true → y.keyLEb z = true →
      x.keyLEb z = true := by
    intro x y z hx hy
    cases x <;> cases y <;> cases z <;>
      simp_all [Value.keyLEb, Value.rank] <;>
      first
      | omega
      | (apply le_trans <;> assumption)
      | (rename_i p q r; cases p <;> cases q <;> cases r <;> simp_all)
  unfold rowRel rowLEb at h1 h2 ⊢
  simp only [Bool.or_eq_true, Bool.and_eq_true, decide_eq_true_eq] at h1 h2 ⊢
  rcases h1 with h1 | ⟨h1e, h1k⟩
  · rcases h2 with h2 | ⟨h2e, _⟩
    · exact Or.inl (h2.trans h1)
    · exact Or.inl (h2e ▸ h1)
  · rcases h2 with h2 | ⟨h2e, h2k⟩
    · refine Or.inl ?_
      rw [h1e]
      exact h2
    · exact Or.inr ⟨h1e.trans h2e, htr _ _ _ h1k h2k⟩

/-! ## Theorems about `apply_filters` and `calculate_percent_change` -/

theorem collectRows_keys (f : Value → Except PipelineError ℚ)
    (ks : List Value) (rows : SummaryTable)
    (h : collectRows f ks = .ok rows) : rows.map Prod.fst = ks := by
  induction ks generalizing rows with
  | nil =>
    unfold collectRows at h
    simp only [Except.ok.injEq] at h
    subst h
    rfl
  | cons k ks ih =>
    unfold collectRows at h
    cases hf : f k with
    | error e => rw [hf] at h; simp at h
    | ok q =>
      cases hr : collectRows f ks with
      | error e => rw [hf, hr] at h; simp at h
      | ok rest =>
        rw [hf, hr] at h
        simp only [Except.ok.injEq] at h
        subst h
        simp [ih rest hr]

/-- C1: for every Dataset and predicate set, a successful `apply_filters`
returns a FilteredView whose records are a sublist of the source's (no
new records, original order preserved; the source itself is untouched
since the operation is a pure function of its inputs), with the schema
unchanged, and every returned record satisfies every predicate. -/
theorem filter_subset_and_sat (ds : Dataset) (ps : List FilterPredicate)
    (v : Dataset) (h : apply_filters ds ps = .ok v) :
    v.schema = ds.schema ∧ v.records.Sublist ds.records ∧
      ∀ r ∈ v.records, ∀ p ∈ ps, satisfies p r = true := by
  unfold apply_filters at h
  cases hfind : ps.find? (fun p => !(ds.schema.contains p.field)) with
  | some p => rw [hfind] at h; simp at h
  | none =>
    rw [hfind] at h
    by_cases hr : ps.any (fun p => p.badRange) = true
    · rw [if_pos hr] at h; simp at h
    · rw [if_neg hr] at h
      simp only [Except.ok.injEq] at h
      subst h
      refine ⟨rfl, List.filter_sublist _, ?_⟩
      intro r hrmem p hp
      have := (List.mem_filter.mp hrmem).2
      exact (List.all_eq_true.mp this) p hp

theorem filter_subset_and_sat_witness :
    sampleView.schema = sampleDS.schema ∧
      sampleView.records.Sublist sampleDS.records ∧
      ∀ r ∈ sampleView.records, ∀ p ∈ samplePreds, satisfies p r = true :=
  filter_subset_and_sat sampleDS samplePreds sampleView rfl

/-- C2: whenever some predicate names a field absent from the dataset's
schema, `apply_filters` fails with a `SchemaMismatch` error naming a
missing predicate field — never a silent skip, never an unstructured
failure. -/
theorem missing_field_schema_mismatch (ds : Dataset)
    (ps : List FilterPredicate)
    (h : ∃ p ∈ ps, ds.schema.contains p.field = false) :
    ∃ f, apply_filters ds ps = .error (.SchemaMismatch f) ∧
      ds.schema.contains f = false ∧ ∃ p ∈ ps, p.field = f := by
  obtain ⟨p, hp, hpf⟩ := h
  have hsome : (ps.find? (fun p => !(ds.schema.contains p.field))).isSome := by
    rw [List.find?_isSome]
    refine ⟨p, hp, ?_⟩
    show (!ds.schema.contains p.field) = true
    rw [hpf]
    rfl
  obtain ⟨q, hq⟩ := Option.isSome_iff_exists.mp hsome
  refine ⟨q.field, ?_, ?_, ⟨q, List.mem_of_find?_eq_some hq, rfl⟩⟩
  · unfold apply_filters
    rw [hq]
  · have := List.find?_some hq
    simpa using this

theorem missing_field_schema_mismatch_witness :
    ∃ f, apply_filters sampleDS [.eq "bogus" .vNull] = .error (.SchemaMismatch f) ∧
      sampleDS.schema.contains f = false ∧
      ∃ p ∈ [FilterPredicate.eq "bogus" .vNull], p.field = f :=
  missing_field_schema_mismatch sampleDS [.eq "bogus" .vNull]
    ⟨.eq "bogus" .vNull, by simp, by decide⟩

/-- C4: predicates combine as an order-independent logical AND — any
permutation of a predicate list that succeeds produces the identical
FilteredView. -/
theorem filters_perm_invariant (ds : Dataset)
    (ps ps' : List FilterPredicate) (hperm : ps.Perm ps') (v : Dataset)
    (h : apply_filters ds ps = .ok v) : apply_filters ds ps' = .ok v := by
  unfold apply_filters at h ⊢
  cases hfind : ps.find? (fun p => !(ds.schema.contains p.field)) with
  | some p => rw [hfind] at h; simp at h
  | none =>
    rw [hfind] at h
    have hfind' : ps'.find? (fun p => !(ds.schema.contains p.field)) = none := by
      rw [List.find?_eq_none] at hfind ⊢
      intro p hp
      exact hfind p (hperm.mem_iff.mpr hp)
    rw [hfind']
    by_cases hr : ps.any (fun p => p.badRange) = true
    · rw [if_pos hr] at h; simp at h
    · rw [if_neg hr] at h
      have hr' : ¬ ps'.any (fun p => p.badRange) = true := by
        simp only [List.any_eq_true, not_exists, not_and] at hr ⊢
        intro p hp
        exact hr p (hperm.mem_iff.mpr hp)
      rw [if_neg hr']
      have hfil : ds.records.filter (fun r => ps'.all (fun p => satisfies p r)) =
          ds.records.filter (fun r => ps.all (fun p => satisfies p r)) := by
        apply List.filter_congr
        intro r _
        rcases hb : ps.all (fun p => satisfies p r) with _ | _
        · rw [← Bool.not_eq_true] at hb ⊢
          simp only [List.all_eq_true, not_forall] at hb ⊢
          obtain ⟨p, hp, hps⟩ := hb
          exact ⟨p, hperm.mem_iff.mp hp, hps⟩
        · rw [List.all_eq_true] at hb ⊢
          intro p hp
          exact hb p (hperm.mem_iff.mpr hp)
      rw [hfil]
      exact h

theorem filters_perm_invariant_witness :
    apply_filters sampleDS
      [.memberOf "area" [.vStr "A", .vStr "B"], .range "price" 200 500] =
      .ok sampleView :=
  filters_perm_invariant sampleDS
    [.range "price" 200 500, .memberOf "area" [.vStr "A", .vStr "B"]]
    [.memberOf "area" [.vStr "A", .vStr "B"], .range "price" 200 500]
    (by decide) sampleView rfl

/-- C9: filtering is idempotent — applying the same predicate set to an
already-filtered view returns that view unchanged. -/
theorem filters_idempotent (ds : Dataset) (ps : List FilterPredicate)
    (v : Dataset) (h : apply_filters ds ps = .ok v) :
    apply_filters v ps = .ok v := by
  unfold apply_filters at h ⊢
  cases hfind : ps.find? (fun p => !(ds.schema.contains p.field)) with
  | some p => rw [hfind] at h; simp at h
  | none =>
    rw [hfind] at h
    by_cases hr : ps.any (fun p => p.badRange) = true
    · rw [if_pos hr] at h; simp at h
    · rw [if_neg hr] at h
      simp only [Except.ok.injEq] at h
      subst h
      simp only []
      rw [hfind, if_neg hr]
      have hself : (ds.records.filter (fun r => ps.all (fun p => satisfies p r))).filter
          (fun r => ps.all (fun p => satisfies p r)) =
          ds.records.filter (fun r => ps.all (fun p => satisfies p r)) := by
        apply List.filter_eq_self.mpr
        intro r hrmem
        exact (List.mem_filter.mp hrmem).2
      rw [hself]

theorem filters_idempotent_witness :
    apply_filters sampleView samplePreds = .ok sampleView :=
  filters_idempotent sampleDS samplePreds sampleView rfl

/-- C10: `calculate_percent_change` never divides by zero: a zero
`previous` yields the infinite marker (`float('inf')` in the source),
and any nonzero `previous` yields `((current - previous) / previous) *
100`. -/
theorem percent_change_total (current previous : ℚ) :
    (previous = 0 → calculate_percent_change current previous = .infinite) ∧
    (previous ≠ 0 → calculate_percent_change current previous =
      .value (((current - previous) / previous) * 100)) := by
  constructor <;> intro h <;> simp [calculate_percent_change, h]

theorem percent_change_total_witness :
    calculate_percent_change 5 0 = .infinite ∧
      calculate_percent_change 300 200 = .value 50 := by
  refine ⟨(percent_change_total 5 0).1 rfl, ?_⟩
  rw [(percent_change_total 300 200).2 (by norm_num)]
  norm_num

/-- C3: a non-`count` reduction over a group with zero rows is the typed
failure `EmptyReduction` — never a silent zero — while the `count`
reduction over zero rows is well-defined and equals zero. -/
theorem empty_reduction_reported :
    (∀ red : Reduction, red ≠ .count →
      reduce red [] = .error .EmptyReduction) ∧
    reduce .count [] = .ok 0 := by
  constructor
  · intro red h
    cases red <;> first | rfl | exact absurd rfl h
  · simp [reduce]

theorem empty_reduction_reported_witness :
    reduce .sum [] = .error .EmptyReduction ∧ reduce .count [] = .ok 0 :=
  ⟨empty_reduction_reported.1 .sum (by decide), empty_reduction_reported.2⟩

/-- C6: `aggregate` on an empty FilteredView returns an empty
SummaryTable for every AggregationSpec — never an error. -/
theorem aggregate_empty_view (v : Dataset) (sp : AggregationSpec)
    (h : v.records = []) : aggregate v sp = .ok [] := by
  unfold aggregate
  rw [h]
  rfl

theorem aggregate_empty_view_witness :
    aggregate { schema := ["price", "area"], records := [] }
      ⟨some "area", "price", .sum⟩ = .ok [] :=
  aggregate_empty_view _ _ rfl

section

attribute [local semireducible] Rat.add Rat.sub Rat.mul Rat.inv

/-- C5: every successful grouped aggregation returns its rows sorted by
descending reduction value with ties broken by ascending lexical key
order (`rowRel`), over distinct group keys; and the §8 scenario —
grouping the `price >= 200` view of the sample dataset by `area` with
reduction `sum` — yields exactly [B:1200, A:200]. -/
theorem aggregate_rows_sorted_desc :
    (∀ (v : Dataset) (sp : AggregationSpec) (g : String) (t : SummaryTable),
      sp.groupField = some g → aggregate v sp = .ok t →
      t.Sorted rowRel ∧ (t.map Prod.fst).Nodup) ∧
    aggregate sampleView ⟨some "area", "price", .sum⟩ =
      .ok [(.vStr "B", 1200), (.vStr "A", 200)] := by
  constructor
  · intro v sp g t hg h
    unfold aggregate at h
    by_cases he : v.records.isEmpty
    · rw [if_pos he] at h
      simp only [Except.ok.injEq] at h
      subst h
      exact ⟨List.sorted_nil, List.nodup_nil⟩
    · rw [if_neg he] at h
      cases hc : checkFields v sp with
      | some f => rw [hc] at h; simp at h
      | none =>
        rw [hc] at h
        cases hgr : groupRows v sp with
        | error e => rw [hgr] at h; simp at h
        | ok rows =>
          rw [hgr] at h
          simp only [Except.ok.injEq] at h
          subst h
          refine ⟨List.sorted_insertionSort rowRel rows, ?_⟩
          have hperm := List.perm_insertionSort rowRel rows
          have hkeys : rows.map Prod.fst = (v.records.map (keyOf g)).dedup := by
            unfold groupRows at hgr
            rw [hg] at hgr
            exact collectRows_keys _ _ _ hgr
          rw [((hperm.map Prod.fst).nodup_iff), hkeys]
          exact List.nodup_dedup _
  · rfl

theorem aggregate_rows_sorted_desc_witness :
    ([(Value.vStr "B", (1200 : ℚ)), (.vStr "A", 200)] : SummaryTable).Sorted rowRel ∧
      (([(Value.vStr "B", (1200 : ℚ)), (.vStr "A", 200)] : SummaryTable).map
        Prod.fst).Nodup :=
  aggregate_rows_sorted_desc.1 sampleView ⟨some "area", "price", .sum⟩ "area"
    [(.vStr "B", 1200), (.vStr "A", 200)] rfl aggregate_rows_sorted_desc.2

end

theorem digitChar_lt_digitChar {a b : Nat} (hb : b ≤ 9) (h : a < b) :
    digitChar a < digitChar b := by
  interval_cases b <;> interval_cases a <;> decide

theorem padDigits_length (w n : Nat) : (padDigits w n).length = w := by
  induction w generalizing n with
  | zero => rfl
  | succ w ih => simp [padDigits, ih]

theorem padDigits_lt {w a b : Nat} (ha : a < 10 ^ w) (hb : b < 10 ^ w)
    (h : a < b) : List.Lex (· < ·) (padDigits w a) (padDigits w b) := by
  induction w generalizing a b with
  | zero => simp at ha hb; omega
  | succ w ih =>
    have hpw : 0 < 10 ^ w := pow_pos (by norm_num) w
    have hda : a / 10 ^ w ≤ b / 10 ^ w := Nat.div_le_div_right h.le
    show List.Lex (· < ·)
      (digitChar (a / 10 ^ w) :: padDigits w (a % 10 ^ w))
      (digitChar (b / 10 ^ w) :: padDigits w (b % 10 ^ w))
    rcases Nat.lt_or_ge (a / 10 ^ w) (b / 10 ^ w) with hd | hd
    · refine List.Lex.rel (digitChar_lt_digitChar ?_ hd)
      have hb9 : b / 10 ^ w < 10 := by
        refine (Nat.div_lt_iff_lt_mul hpw).mpr ?_
        rw [pow_succ] at hb
        omega
      omega
    · have hdeq : a / 10 ^ w = b / 10 ^ w := le_antisymm hda hd
      rw [hdeq]
      refine List.Lex.cons (ih (Nat.mod_lt _ hpw) (Nat.mod_lt _ hpw) ?_)
      have h1 := Nat.div_add_mod a (10 ^ w)
      have h2 := Nat.div_add_mod b (10 ^ w)
      rw [hdeq] at h1
      omega

theorem lex_append_of_lex {xs ys : List Char}
    (h : List.Lex (· < ·) xs ys) :
    xs.length = ys.length → ∀ as bs : List Char,
      List.Lex (· < ·) (xs ++ as) (ys ++ bs) := by
  induction h with
  | nil => intro hlen; simp at hlen
  | rel hab => intro _ as bs; exact List.Lex.rel hab
  | cons h ih =>
    intro hlen as bs
    exact List.Lex.cons (ih (by simpa using hlen) as bs)

theorem lex_append_left (p : List Char) {as bs : List Char}
    (h : List.Lex (· < ·) as bs) :
    List.Lex (· < ·) (p ++ as) (p ++ bs) := by
  induction p with
  | nil => simpa using h
  | cons c p ih => exact List.Lex.cons ih

theorem monthOffset_le (m : Nat) : monthOffset m ≤ 334 := by
  unfold monthOffset
  split <;> omega

theorem daysInMonth_le (y m : Nat) : daysInMonth y m ≤ 31 := by
  unfold daysInMonth
  split_ifs <;> omega

theorem dayOfYear_le (d : Date) (hd : validDate d) : dayOfYear d ≤ 366 := by
  obtain ⟨_, _, _, _, _, hdu⟩ := hd
  have h1 := monthOffset_le d.month
  have h2 := daysInMonth_le d.year d.month
  unfold dayOfYear madj
  split_ifs <;> omega

theorem monthStep (y m : Nat) (h1 : 1 ≤ m) (h2 : m ≤ 11) :
    monthOffset m + daysInMonth y m + madj y m ≤
      monthOffset (m + 1) + madj y (m + 1) := by
  interval_cases m <;>
    cases hL : isLeap y <;>
      simp [monthOffset, daysInMonth, madj, hL]

theorem monthCum (y : Nat) : ∀ m2 m1, 1 ≤ m1 → m1 < m2 → m2 ≤ 12 →
    monthOffset m1 + daysInMonth y m1 + madj y m1 ≤
      monthOffset m2 + madj y m2 := by
  intro m2
  induction m2 with
  | zero => omega
  | succ m ih =>
    intro m1 h1 h2 h3
    rcases Nat.lt_or_ge m1 m with hlt | hge
    · have hc := ih m1 h1 hlt (by omega)
      have hstep := monthStep y m (by omega) (by omega)
      omega
    · have hm : m1 = m := by omega
      subst hm
      exact monthStep y m1 h1 (by omega)

theorem dayOfYear_mono {d e : Date} (hd : validDate d) (he : validDate e)
    (hy : d.year = e.year)
    (h : d.month < e.month ∨ (d.month = e.month ∧ d.day < e.day)) :
    dayOfYear d < dayOfYear e := by
  obtain ⟨y1, m1, a1⟩ := d
  obtain ⟨y2, m2, a2⟩ := e
  dsimp only at hy h ⊢
  subst hy
  obtain ⟨_, _, hm1a, hm1b, ha1a, ha1b⟩ := hd
  obtain ⟨_, _, hm2a, hm2b, ha2a, ha2b⟩ := he
  dsimp only at *
  unfold dayOfYear
  dsimp only
  rcases h with hlt | ⟨heq, hday⟩
  · have hc := monthCum y1 m2 m1 hm1a hlt hm2b
    omega
  · subst heq
    omega

theorem weekOfYear_lt (d : Date) (hd : validDate d) : weekOfYear d < 100 := by
  have := dayOfYear_le d hd
  unfold weekOfYear
  omega

theorem weekOfYear_mono {d e : Date} (hd : validDate d) (he : validDate e)
    (hy : d.year = e.year)
    (h : d.month < e.month ∨ (d.month = e.month ∧ d.day < e.day)) :
    weekOfYear d ≤ weekOfYear e := by
  have := dayOfYear_mono hd he hy h
  unfold weekOfYear
  omega

/-- C7: a bucket key is a deterministic function of (date, granularity):
any two dates in the same calendar bucket receive an identical key, keys
of chronologically ordered dates in different buckets are in strict
lexical order, and monthly bucketing of [2024-01-15, 2024-01-20,
2024-02-01] tags the records ["2024-01", "2024-01", "2024-02"]. -/
theorem bucket_key_calendar :
    (∀ (g : Granularity) (d e : Date), sameBucket g d e →
      bucketKey g d = bucketKey g e) ∧
    (∀ (g : Granularity) (d e : Date), validDate d → validDate e →
      dateBefore d e → ¬ sameBucket g d e →
      strLexLt (bucketKey g d) (bucketKey g e)) ∧
    period_bucket monthDS "d" .month 0 = .ok (monthBucketedDS, 0) := by
  refine ⟨?_, ?_, ?_⟩
  · intro g d e hs
    cases g with
    | year =>
      unfold sameBucket at hs
      show (⟨padDigits 4 d.year⟩ : String) = ⟨padDigits 4 e.year⟩
      rw [hs]
    | week =>
      unfold sameBucket at hs
      obtain ⟨h1, h2⟩ := hs
      show (⟨padDigits 4 d.year ++ '-' :: 'W' :: padDigits 2 (weekOfYear d)⟩ : String) =
        ⟨padDigits 4 e.year ++ '-' :: 'W' :: padDigits 2 (weekOfYear e)⟩
      rw [h1, h2]
    | month =>
      unfold sameBucket at hs
      obtain ⟨h1, h2⟩ := hs
      show (⟨padDigits 4 d.year ++ '-' :: padDigits 2 d.month⟩ : String) =
        ⟨padDigits 4 e.year ++ '-' :: padDigits 2 e.month⟩
      rw [h1, h2]
    | quarter =>
      unfold sameBucket at hs
      obtain ⟨h1, h2⟩ := hs
      show (⟨padDigits 4 d.year ++ '-' :: 'Q' :: padDigits 1 (quarterOf d.month)⟩ : String) =
        ⟨padDigits 4 e.year ++ '-' :: 'Q' :: padDigits 1 (quarterOf e.month)⟩
      rw [h1, h2]
    | day =>
      unfold sameBucket at hs
      obtain ⟨h1, h2, h3⟩ := hs
      show (⟨padDigits 4 d.year ++ '-' :: (padDigits 2 d.month ++ '-' :: padDigits 2 d.day)⟩ : String) =
        ⟨padDigits 4 e.year ++ '-' :: (padDigits 2 e.month ++ '-' :: padDigits 2 e.day)⟩
      rw [h1, h2, h3]
  · intro g d e hvd hve hlt hns
    have h104 : (10:ℕ) ^ 4 = 10000 := by norm_num
    have h102 : (10:ℕ) ^ 2 = 100 := by norm_num
    have h101 : (10:ℕ) ^ 1 = 10 := by norm_num
    obtain ⟨hy1a, hy1b, hm1a, hm1b, hd1a, hd1b⟩ := id hvd
    obtain ⟨hy2a, hy2b, hm2a, hm2b, hd2a, hd2b⟩ := id hve
    unfold dateBefore at hlt
    cases g with
    | year =>
      unfold sameBucket at hns
      have hyy : d.year < e.year := by
        rcases hlt with h | ⟨h, _⟩
        · exact h
        · exact absurd h hns
      show List.Lex (· < ·) (padDigits 4 d.year) (padDigits 4 e.year)
      exact padDigits_lt (by omega) (by omega) hyy
    | month =>
      unfold sameBucket at hns
      rcases Nat.lt_trichotomy d.year e.year with hy | hy | hy
      · show List.Lex (· < ·)
          (padDigits 4 d.year ++ '-' :: padDigits 2 d.month)
          (padDigits 4 e.year ++ '-' :: padDigits 2 e.month)
        exact lex_append_of_lex (padDigits_lt (by omega) (by omega) hy)
          (by rw [padDigits_length, padDigits_length]) _ _
      · have hm : d.month < e.month := by
          rcases hlt with h | ⟨_, h | ⟨hm, _⟩⟩
          · omega
          · exact h
          · exact absurd ⟨hy, hm⟩ hns
        show List.Lex (· < ·)
          (padDigits 4 d.year ++ '-' :: padDigits 2 d.month)
          (padDigits 4 e.year ++ '-' :: padDigits 2 e.month)
        rw [← hy]
        exact lex_append_left _
          (List.Lex.cons (padDigits_lt (by omega) (by omega) hm))
      · exfalso
        rcases hlt with h | ⟨h, _⟩ <;> omega
    | quarter =>
      unfold sameBucket at hns
      rcases Nat.lt_trichotomy d.year e.year with hy | hy | hy
      · show List.Lex (· < ·)
          (padDigits 4 d.year ++ '-' :: 'Q' :: padDigits 1 (quarterOf d.month))
          (padDigits 4 e.year ++ '-' :: 'Q' :: padDigits 1 (quarterOf e.month))
        exact lex_append_of_lex (padDigits_lt (by omega) (by omega) hy)
          (by rw [padDigits_length, padDigits_length]) _ _
      · have hq : ¬ quarterOf d.month = quarterOf e.month := fun hq => hns ⟨hy, hq⟩
        have hm : d.month ≤ e.month := by
          rcases hlt with h | ⟨_, h | ⟨hm, _⟩⟩ <;> omega
        have hqlt : quarterOf d.month < quarterOf e.month := by
          unfold quarterOf at hq ⊢
          omega
        show List.Lex (· < ·)
          (padDigits 4 d.year ++ '-' :: 'Q' :: padDigits 1 (quarterOf d.month))
          (padDigits 4 e.year ++ '-' :: 'Q' :: padDigits 1 (quarterOf e.month))
        rw [← hy]
        refine lex_append_left _
          (List.Lex.cons (List.Lex.cons (padDigits_lt ?_ ?_ hqlt)))
        · unfold quarterOf
          omega
        · unfold quarterOf
          omega
      · exfalso
        rcases hlt with h | ⟨h, _⟩ <;> omega
    | week =>
      unfold sameBucket at hns
      rcases Nat.lt_trichotomy d.year e.year with hy | hy | hy
      · show List.Lex (· < ·)
          (padDigits 4 d.year ++ '-' :: 'W' :: padDigits 2 (weekOfYear d))
          (padDigits 4 e.year ++ '-' :: 'W' :: padDigits 2 (weekOfYear e))
        exact lex_append_of_lex (padDigits_lt (by omega) (by omega) hy)
          (by rw [padDigits_length, padDigits_length]) _ _
      · have hw : ¬ weekOfYear d = weekOfYear e := fun hw => hns ⟨hy, hw⟩
        have hmd : d.month < e.month ∨ (d.month = e.month ∧ d.day < e.day) := by
          rcases hlt with h | ⟨_, h⟩
          · omega
          · exact h
        have hwle := weekOfYear_mono hvd hve hy hmd
        have hw1 := weekOfYear_lt d hvd
        have hw2 := weekOfYear_lt e hve
        show List.Lex (· < ·)
          (padDigits 4 d.year ++ '-' :: 'W' :: padDigits 2 (weekOfYear d))
          (padDigits 4 e.year ++ '-' :: 'W' :: padDigits 2 (weekOfYear e))
        rw [← hy]
        refine lex_append_left _
          (List.Lex.cons (List.Lex.cons (padDigits_lt (by omega) (by omega) (by omega))))
      · exfalso
        rcases hlt with h | ⟨h, _⟩ <;> omega
    | day =>
      unfold sameBucket at hns
      rcases Nat.lt_trichotomy d.year e.year with hy | hy | hy
      · show List.Lex (· < ·)
          (padDigits 4 d.year ++ '-' :: (padDigits 2 d.month ++ '-' :: padDigits 2 d.day))
          (padDigits 4 e.year ++ '-' :: (padDigits 2 e.month ++ '-' :: padDigits 2 e.day))
        exact lex_append_of_lex (padDigits_lt (by omega) (by omega) hy)
          (by rw [padDigits_length, padDigits_length]) _ _
      · rcases Nat.lt_trichotomy d.month e.month with hm | hm | hm
        · show List.Lex (· < ·)
            (padDigits 4 d.year ++ '-' :: (padDigits 2 d.month ++ '-' :: padDigits 2 d.day))
            (padDigits 4 e.year ++ '-' :: (padDigits 2 e.month ++ '-' :: padDigits 2 e.day))
          rw [← hy]
          refine lex_append_left _ (List.Lex.cons ?_)
          exact lex_append_of_lex (padDigits_lt (by omega) (by omega) hm)
            (by rw [padDigits_length, padDigits_length]) _ _
        · have hdd : d.day < e.day := by
            rcases hlt with h | ⟨_, h | ⟨_, h⟩⟩
            · omega
            · omega
            · exact h
          have hb1 : d.day ≤ 31 := le_trans hd1b (daysInMonth_le _ _)
          have hb2 : e.day ≤ 31 := le_trans hd2b (daysInMonth_le _ _)
          show List.Lex (· < ·)
            (padDigits 4 d.year ++ '-' :: (padDigits 2 d.month ++ '-' :: padDigits 2 d.day))
            (padDigits 4 e.year ++ '-' :: (padDigits 2 e.month ++ '-' :: padDigits 2 e.day))
          rw [← hy, ← hm]
          exact lex_append_left _ (List.Lex.cons (lex_append_left _
            (List.Lex.cons (padDigits_lt (by omega) (by omega) hdd))))
        · exfalso
          rcases hlt with h | ⟨_, h | ⟨h, _⟩⟩ <;> omega
      · exfalso
        rcases hlt with h | ⟨h, _⟩ <;> omega
  · rfl

theorem bucket_key_calendar_witness :
    bucketKey .month ⟨2024, 1, 15⟩ = bucketKey .month ⟨2024, 1, 20⟩ ∧
      strLexLt (bucketKey .month ⟨2024, 1, 20⟩) (bucketKey .month ⟨2024, 2, 1⟩) :=
  ⟨bucket_key_calendar.1 .month ⟨2024, 1, 15⟩ ⟨2024, 1, 20⟩ (by decide),
   bucket_key_calendar.2.1 .month ⟨2024, 1, 20⟩ ⟨2024, 2, 1⟩ (by decide)
     (by decide) (by decide) (by decide)⟩

theorem parsedSplitLength (g : Granularity)
    (l : List (Record × Option Date)) :
    (l.filterMap (fun x => x.2.map
      (fun d => x.1 ++ [("time_period", Value.vStr (bucketKey g d))]))).length +
      (l.filter (fun x => x.2.isNone)).length = l.length := by
  induction l with
  | nil => rfl
  | cons x l ih =>
    rcases x with ⟨a, _ | b⟩ <;>
      simp [List.filterMap_cons, List.filter_cons] <;> omega

/-- C8: whenever `period_bucket` succeeds, the count it returns is
exactly the number of records whose date failed to parse, and the output
has exactly the source records minus those dropped — dropped records are
reported, never silently lost. -/
theorem period_bucket_drop_count (ds : Dataset) (field : String)
    (g : Granularity) (tol : Nat) (out : Dataset) (n : Nat)
    (h : period_bucket ds field g tol = .ok (out, n)) :
    n = (ds.records.filter
      (fun r => (parseDateValue ((getField r field).getD .vNull)).isNone)).length ∧
    out.records.length + n = ds.records.length := by
  unfold period_bucket at h
  split at h
  · simp at h
  · split at h
    · simp at h
    · simp only [Except.ok.injEq, Prod.mk.injEq] at h
      obtain ⟨ho, hn⟩ := h
      subst hn
      subst ho
      constructor
      · unfold droppedCount parsedRecords
        rw [List.filter_map]
        rw [List.length_map]
        rfl
      · unfold droppedCount
        have hp := parsedSplitLength g (parsedRecords ds field)
        have hl : (parsedRecords ds field).length = ds.records.length := by
          unfold parsedRecords
          rw [List.length_map]
        dsimp only
        omega

theorem period_bucket_drop_count_witness :
    (1 : Nat) = (badDateDS.records.filter
      (fun r => (parseDateValue ((getField r "d").getD .vNull)).isNone)).length ∧
    monthBucketedDS.records.length + 1 = badDateDS.records.length :=
  period_bucket_drop_count badDateDS "d" .month 5 monthBucketedDS 1 rfl
